import Mathlib

/-!
# TIN geometry parsing, scaling and centroid computation: a formal model

This development embeds the two Python source files of the repository
(`XML_scale.py` and `func.py`) as Lean definitions and settles the
specification claims against them.

Modelling conventions:
* Element texts are `List Char`.  Python `str.split()` (split on whitespace
  runs, dropping empty pieces) and `str.split(" ")` (split on every single
  space character, keeping empty pieces) are modelled separately, because the
  two source files use different ones.
* Python `int(s)` / `float(s)` are modelled by `parseInt?` / `parseFloat?`.
  Floats are valued in exact decimals `Dec` (an integer mantissa times a
  power of ten), which represent every parseable literal exactly; IEEE
  double rounding is idealised away, the reading the specification itself
  takes for its numeric semantics.  (Exotic Python acceptances such as
  digit-group underscores and `inf` / `nan` literals are outside the inputs
  exercised here and are not modelled.)
* Real-valued geometry (`compute_triangle_area`, `compute_weighted_centroid`)
  is modelled over `ℝ`, idealising IEEE doubles by exact reals.
-/

/-! ## Characters and tokenization -/

/-- The whitespace characters recognised by Python `str.split()` and
`str.strip()` (for ASCII input). -/
def isWs (c : Char) : Bool :=
  c = ' ' || c = '\t' || c = '\n' || c = '\r' || c = '\x0b' || c = '\x0c'

/-- Strip leading and trailing whitespace, as Python `int` / `float` do
before parsing a literal. -/
def trimChars (l : List Char) : List Char :=
  ((l.dropWhile isWs).reverse.dropWhile isWs).reverse

/-- Split a character list at every character satisfying `p`, keeping empty
pieces; `acc` holds the (reversed) current piece. -/
def splitAux (p : Char → Bool) : List Char → List Char → List (List Char)
  | [], acc => [acc.reverse]
  | c :: cs, acc =>
    if p c then acc.reverse :: splitAux p cs [] else splitAux p cs (c :: acc)

/-- Split at every character satisfying `p`, keeping empty pieces.  With
`p = (· = ' ')` this is Python `str.split(" ")`. -/
def splitKeep (p : Char → Bool) (l : List Char) : List (List Char) :=
  splitAux p l []

/-- Python `text.split(" ")`: split on every single space character, keeping
the empty pieces produced by consecutive separators.  This is the
tokenization used by `XML_scale.py`. -/
def splitSpace (l : List Char) : List (List Char) :=
  splitKeep (fun c => c = ' ') l

/-- Python `text.split()`: split on runs of whitespace, dropping empty
pieces.  This is the tokenization used by `func.py`. -/
def splitWs (l : List Char) : List (List Char) :=
  (splitKeep isWs l).filter (fun t => !t.isEmpty)

/-! ## Numeric literal parsing (Python `int` and `float`) -/

/-- The numeric value of a digit character. -/
def digitVal (c : Char) : ℕ := c.toNat - 48

/-- Take the longest prefix of decimal digits, returning their values and
the remaining characters. -/
def takeDigits : List Char → List ℕ × List Char
  | [] => ([], [])
  | c :: cs =>
    if c.isDigit then
      let r := takeDigits cs
      (digitVal c :: r.1, r.2)
    else ([], c :: cs)

/-- The natural number denoted by a most-significant-first digit list. -/
def natOfDigits (ds : List ℕ) : ℕ := ds.foldl (fun a d => 10 * a + d) 0

/-- Consume an optional leading sign; `true` means negative. -/
def parseSign : List Char → Bool × List Char
  | '+' :: cs => (false, cs)
  | '-' :: cs => (true, cs)
  | cs => (false, cs)

/-- Python `int(s)` on a token: optional surrounding whitespace, optional
sign, then a nonempty run of digits consuming the whole token. -/
def parseInt? (t : List Char) : Option ℤ :=
  let s := parseSign (trimChars t)
  let d := takeDigits s.2
  if d.1.isEmpty || !d.2.isEmpty then none
  else some (if s.1 then -(natOfDigits d.1 : ℤ) else (natOfDigits d.1 : ℤ))

/-- An exact decimal number: the value `mant * 10 ^ exp`.  Every literal
Python `float` accepts denotes such a number exactly; the scaler's
arithmetic (multiplication by the scale factor, fixed-point formatting) is
closed over them. -/
structure Dec where
  mant : ℤ
  exp : ℤ
deriving DecidableEq

/-- The rational value denoted by an exact decimal. -/
def Dec.val (v : Dec) : ℚ := (v.mant : ℚ) * (10 : ℚ) ^ v.exp

/-- Multiplication of exact decimals (`x * scale_factor` in the scaler). -/
def decMul (a b : Dec) : Dec := ⟨a.mant * b.mant, a.exp + b.exp⟩

/-- The exponent suffix of a `float` literal (after the `e`/`E`): optional
sign and a nonempty digit run consuming the rest of the token. -/
def parseExpTail (r : List Char) : Option ℤ :=
  let s := parseSign r
  let d := takeDigits s.2
  if d.1.isEmpty || !d.2.isEmpty then none
  else some (if s.1 then -(natOfDigits d.1 : ℤ) else (natOfDigits d.1 : ℤ))

/-- Python `float(s)` on a token, valued in exact decimals: optional
surrounding whitespace, optional sign, a mantissa `digits`, `digits.`,
`digits.digits` or `.digits`, and an optional exponent part. -/
def parseFloat? (t : List Char) : Option Dec :=
  let s := parseSign (trimChars t)
  let d1 := takeDigits s.2
  let mant : Option (ℤ × ℤ × List Char) :=
    match d1.2 with
    | '.' :: rdot =>
      let d2 := takeDigits rdot
      if d1.1.isEmpty && d2.1.isEmpty then none
      else some ((natOfDigits (d1.1 ++ d2.1) : ℤ), -(d2.1.length : ℤ), d2.2)
    | _ => if d1.1.isEmpty then none else some ((natOfDigits d1.1 : ℤ), 0, d1.2)
  match mant with
  | none => none
  | some m =>
    let e : Option ℤ :=
      match m.2.2 with
      | [] => some 0
      | 'e' :: r3 => parseExpTail r3
      | 'E' :: r3 => parseExpTail r3
      | _ => none
    match e with
    | none => none
    | some ex => some ⟨if s.1 then -m.1 else m.1, m.2.1 + ex⟩

/-- `[int(x) for x in toks]`: all tokens as integers, or the first failure. -/
def parseInts : List (List Char) → Option (List ℤ)
  | [] => some []
  | t :: ts =>
    match parseInt? t with
    | none => none
    | some n =>
      match parseInts ts with
      | none => none
      | some ns => some (n :: ns)

/-- `[float(x) for x in toks]`: all tokens as exact decimals, or the first
failure. -/
def parseFloats : List (List Char) → Option (List Dec)
  | [] => some []
  | t :: ts =>
    match parseFloat? t with
    | none => none
    | some q =>
      match parseFloats ts with
      | none => none
      | some qs => some (q :: qs)

/-! ## The Geometry Extractor (`func.py`, `parse_tin_geometry`) -/

/-- A face is the ordered triplet of point IDs that `parse_tin_geometry`
keeps for an `F` element with exactly three integer tokens. -/
abbrev Face := ℤ × ℤ × ℤ

/-- A `P` element as the extractor sees it: the optional `id` attribute and
the text content. -/
structure PElem where
  idAttr : Option (List Char)
  text : List Char
deriving DecidableEq

/-- A parsed 3D point: three exact-decimal coordinates. -/
abbrev Q3 := Dec × Dec × Dec

/-- The extractor's point mapping (`points` dict in `func.py`). -/
abbrev QPtMap := ℤ → Option Q3

/-- The empty point mapping. -/
def emptyQMap : QPtMap := fun _ => none

/-- `points[pid] = coords`: dictionary update, overwriting any earlier
binding of the same key. -/
def updateMap (m : QPtMap) (k : ℤ) (v : Q3) : QPtMap :=
  fun i => if i = k then some v else m i

/-- The errors `parse_tin_geometry` can raise: the wrapped
`ValueError("Invalid point entry ...")` from the point loop (the spec's
`InvalidPoint`), and the unwrapped `ValueError` that `int(x)` raises inside
the face loop, which the source does not catch and which corresponds to no
name in the spec's error taxonomy. -/
inductive ExtractError where
  | invalidPoint (p : PElem)
  | faceTokenError (text : List Char)
deriving DecidableEq

/-- An XML document as `parse_tin_geometry` consumes it: the texts of all
`F` elements and all `P` elements, each list in document order (the order
`find_all` returns). -/
structure XDoc where
  fs : List (List Char)
  ps : List PElem
deriving DecidableEq

/-- The face loop of `parse_tin_geometry`: for each `F` element, parse all
whitespace tokens as integers (an unparseable token raises), and keep the
face only when exactly three tokens result. -/
def processFaces : List (List Char) → Except ExtractError (List Face)
  | [] => .ok []
  | t :: ts =>
    match parseInts (splitWs t) with
    | none => .error (.faceTokenError t)
    | some [a, b, c] =>
      match processFaces ts with
      | .error e => .error e
      | .ok fs => .ok ((a, b, c) :: fs)
    | some _ => processFaces ts

/-- The point loop of `parse_tin_geometry`: for each `P` element, a missing
`id`, an unparseable `id`, or an unparseable coordinate token raises
`InvalidPoint`; when all tokens parse, the point is stored only if there
are exactly three of them (any other arity is silently skipped). -/
def processPoints : List PElem → QPtMap → Except ExtractError QPtMap
  | [], m => .ok m
  | p :: ps, m =>
    match p.idAttr with
    | none => .error (.invalidPoint p)
    | some s =>
      match parseInt? s with
      | none => .error (.invalidPoint p)
      | some pid =>
        match parseFloats (splitWs p.text) with
        | none => .error (.invalidPoint p)
        | some [x, y, z] => processPoints ps (updateMap m pid (x, y, z))
        | some _ => processPoints ps m

/-- `parse_tin_geometry`: the face loop runs first, then the point loop;
the result is the pair `(points, faces)`. -/
def parse_tin_geometry (d : XDoc) : Except ExtractError (QPtMap × List Face) :=
  match processFaces d.fs with
  | .error e => .error e
  | .ok faces =>
    match processPoints d.ps emptyQMap with
    | .error e => .error e
    | .ok pts => .ok (pts, faces)

/-- The integer ID a `P` element's `id` attribute parses to, if any. -/
def idOf (p : PElem) : Option ℤ :=
  match p.idAttr with
  | some s => parseInt? s
  | none => none

/-- The coordinates a `P` element contributes: defined exactly when its
text splits into three parseable float tokens. -/
def coordsOf (p : PElem) : Option Q3 :=
  match parseFloats (splitWs p.text) with
  | some [x, y, z] => some (x, y, z)
  | _ => none

/-- The face an `F` element contributes to the face list: defined exactly
when its text splits into three parseable integer tokens. -/
def faceOf (t : List Char) : Option Face :=
  match parseInts (splitWs t) with
  | some [a, b, c] => some (a, b, c)
  | _ => none

/-- Whether a `P` element stores coordinates under ID `i`: its `id`
attribute parses to `i` and its text yields exactly three floats. -/
def validFor (i : ℤ) (p : PElem) : Bool :=
  (idOf p == some i) && (coordsOf p).isSome

/-- Whether an extractor result is the `InvalidPoint` failure. -/
def isInvalidPointErr {α : Type} : Except ExtractError α → Bool
  | .error (.invalidPoint _) => true
  | _ => false

/-- Whether an extractor result is the uncaught face-token failure. -/
def isFaceTokenErr {α : Type} : Except ExtractError α → Bool
  | .error (.faceTokenError _) => true
  | _ => false

/-- Whether an `Except` result is a success. -/
def isOkB {ε α : Type} : Except ε α → Bool
  | .ok _ => true
  | .error _ => false

/-- The claim's failure condition for a single `P` element: `id` missing or
not an integer, or the text does not yield exactly 3 floats when split on
whitespace. -/
def specPointBad (p : PElem) : Bool :=
  (idOf p).isNone ||
    (match parseFloats (splitWs p.text) with
     | some qs => !(qs.length == 3)
     | none => true)

/-- The source's actual failure condition for a single `P` element: `id`
missing or not an integer, or some whitespace token of the text does not
parse as a float.  (Exactly-three-ness is *not* part of it.) -/
def pointRaises (p : PElem) : Bool :=
  (idOf p).isNone || (parseFloats (splitWs p.text)).isNone

/-- Whether every `F` element's whitespace tokens parse as integers, so the
face loop runs to completion. -/
def facesPhaseOk (d : XDoc) : Bool :=
  d.fs.all (fun t => (parseInts (splitWs t)).isSome)

/-! ## Decimal rendering (Python `"{:.Nf}".format` and `str`) -/

/-- The little-endian decimal digits of `n`; the first argument is
structural fuel (`n` itself suffices). -/
def natDigitsAux : ℕ → ℕ → List ℕ
  | 0, _ => []
  | _ + 1, 0 => []
  | fuel + 1, n + 1 => ((n + 1) % 10) :: natDigitsAux fuel ((n + 1) / 10)

/-- The character for a decimal digit. -/
def digitChar10 (k : ℕ) : Char := Char.ofNat (48 + k)

/-- The decimal digit characters of `n`, most significant first; empty for
`n = 0`. -/
def natDigitChars (n : ℕ) : List Char :=
  ((natDigitsAux n n).reverse).map digitChar10

/-- Python `str` of a natural number. -/
def natChars (n : ℕ) : List Char :=
  if n = 0 then ['0'] else natDigitChars n

/-- Python `str` of an integer (used for face tokens, `str(int(x))`). -/
def intToChars (i : ℤ) : List Char :=
  (if i < 0 then ['-'] else []) ++ natChars i.natAbs

/-- The fractional digit block of a fixed-point rendering: the digits of
`m` left-padded with zeros to width `d`. -/
def fracChars (m d : ℕ) : List Char :=
  List.replicate (d - (natDigitChars m).length) '0' ++ natDigitChars m

/-- Round `m / p` (for `p > 0`) to the nearest integer, ties to even. -/
def rheDiv (m p : ℤ) : ℤ :=
  let q := Int.ediv m p
  let r := Int.emod m p
  if 2 * r < p then q
  else if p < 2 * r then q + 1
  else if Int.emod q 2 = 0 then q else q + 1

/-- Round the value of an exact decimal times `10 ^ d` to the nearest
integer, ties to even — the integer whose digits a `"{:.df}"` format
prints. -/
def decRound (v : Dec) (d : ℕ) : ℤ :=
  let k := v.exp + (d : ℤ)
  if 0 ≤ k then v.mant * 10 ^ k.toNat
  else rheDiv v.mant (10 ^ (-k).toNat)

/-- Python `"{:.df}".format(x)`: sign, integer part, `'.'`, then exactly
`d` fractional digits, rounding half-to-even. -/
def fmtFixed (v : Dec) (d : ℕ) : List Char :=
  let n := decRound v d
  let m := n.natAbs
  (if n < 0 then ['-'] else []) ++
    natChars (m / 10 ^ d) ++ '.' :: fracChars (m % 10 ^ d) d

/-- Stand-in for Python `str` on a float value.  The scaler only ever
applies it to trailing tokens of a `P` element with more than three
tokens; no claim inspects the resulting characters, only that rewriting
succeeds. -/
def pyStrFloat (v : Dec) : List Char :=
  intToChars v.mant ++ 'e' :: intToChars v.exp

/-- Python `" ".join(tokens)`. -/
def joinSpace : List (List Char) → List Char
  | [] => []
  | [t] => t
  | t :: ts => t ++ ' ' :: joinSpace ts

/-! ## The Scaler (`XML_scale.py`, `main`) -/

/-- The `F` branch of the scaler on one element's text.  An element with no
text has no child node, so the inner loop never runs and the text is left
alone; otherwise every single-space-separated token must parse as an
integer (else `int` raises, modelled as an error carrying the raw text) and
the text is rewritten as the space-joined token list. -/
def scaleFText (t : List Char) : Except (List Char) (List Char) :=
  if t.isEmpty then .ok t
  else
    match parseInts (splitSpace t) with
    | none => .error t
    | some ns => .ok (joinSpace (ns.map intToChars))

/-- The `P` branch of the scaler on one element's text.  An element with no
text is skipped; otherwise all single-space-separated tokens must parse as
floats (else `float` raises), and there must be at least three of them
(else the index assignment raises `IndexError`); the first two values are
multiplied by the scale factor and formatted to 12 decimal places, the
third is formatted unscaled to 4 decimal places, and any further tokens are
re-rendered from their float values. -/
def scalePText (s : Dec) (t : List Char) : Except (List Char) (List Char) :=
  if t.isEmpty then .ok t
  else
    match parseFloats (splitSpace t) with
    | none => .error t
    | some (x :: y :: z :: rest) =>
      .ok (joinSpace (fmtFixed (decMul x s) 12 :: fmtFixed (decMul y s) 12 ::
        fmtFixed z 4 :: rest.map pyStrFloat))
    | some _ => .error t

/-- Run an elementwise rewriting over a list of texts, stopping at the
first error, as the scaler's `for` loops do. -/
def scaleList (g : List Char → Except (List Char) (List Char)) :
    List (List Char) → Except (List Char) (List (List Char))
  | [] => .ok []
  | t :: ts =>
    match g t with
    | .error e => .error e
    | .ok t' =>
      match scaleList g ts with
      | .error e => .error e
      | .ok ts' => .ok (t' :: ts')

/-- A document as the scaler sees it: the texts of all `F` elements and all
`P` elements, in document order. -/
structure SDoc where
  fs : List (List Char)
  ps : List (List Char)
deriving DecidableEq

/-- The scaler `main` (file I/O and the printed summary stripped away): the
face loop runs over every `F` element, then the point loop over every `P`
element. -/
def scaleDoc (s : Dec) (d : SDoc) : Except (List Char) SDoc :=
  match scaleList scaleFText d.fs with
  | .error e => .error e
  | .ok fs' =>
    match scaleList (scalePText s) d.ps with
    | .error e => .error e
    | .ok ps' => .ok ⟨fs', ps'⟩

/-- The `F` rewrite as a total function (its value on texts the scaler
rejects is irrelevant and chosen as the unchanged text). -/
def scaleFTextTotal (t : List Char) : List Char :=
  match scaleFText t with
  | .ok r => r
  | .error _ => t

/-- The `P` rewrite as a total function. -/
def scalePTextTotal (s : Dec) (t : List Char) : List Char :=
  match scalePText s t with
  | .ok r => r
  | .error _ => t

/-- The source's actual failure condition for one `F` element: nonempty
text some single-space token of which does not parse as an integer. -/
def scalerBadF (t : List Char) : Bool :=
  !t.isEmpty && (parseInts (splitSpace t)).isNone

/-- The source's actual failure condition for one `P` element: nonempty
text whose single-space tokens do not all parse as floats, or fewer than
three tokens. -/
def scalerBadP (t : List Char) : Bool :=
  !t.isEmpty &&
    (match parseFloats (splitSpace t) with
     | none => true
     | some qs => qs.length < 3)

/-- The source's failure condition for a whole document. -/
def scalerBad (d : SDoc) : Bool :=
  d.fs.any scalerBadF || d.ps.any scalerBadP

/-- The claim's failure condition, read literally with *whitespace*
tokenization: some `F` element has a whitespace token that is not an
integer, or some `P` element does not split into at least 3 whitespace
tokens parseable as floats. -/
def scalerBadWs (d : SDoc) : Bool :=
  d.fs.any (fun t => (parseInts (splitWs t)).isNone) ||
    d.ps.any (fun t =>
      match parseFloats (splitWs t) with
      | none => true
      | some qs => qs.length < 3)

/-- The characters after the first `'.'` of a rendered token. -/
def decimalsOf (l : List Char) : List Char :=
  (l.dropWhile (fun c => !(c == '.'))).drop 1

/-! ## Area and centroid (`func.py`, `compute_triangle_area` and
`compute_weighted_centroid`)

Coordinates are exact reals.  `np.ndarray` 3-vectors become `ℝ × ℝ × ℝ`
with componentwise operations (the `Prod` instances), `np.cross` becomes
`cross3`, `np.linalg.norm` becomes `norm3`. -/

/-- A 3D vector. -/
abbrev V3 := ℝ × ℝ × ℝ

/-- `np.cross` of two 3-vectors. -/
def cross3 (u v : V3) : V3 :=
  (u.2.1 * v.2.2 - u.2.2 * v.2.1,
   u.2.2 * v.1 - u.1 * v.2.2,
   u.1 * v.2.1 - u.2.1 * v.1)

/-- `np.linalg.norm`: the Euclidean norm of a 3-vector. -/
noncomputable def norm3 (v : V3) : ℝ :=
  Real.sqrt (v.1 ^ 2 + v.2.1 ^ 2 + v.2.2 ^ 2)

/-- `compute_triangle_area`: half the norm of the cross product of the two
edge vectors. -/
noncomputable def compute_triangle_area (v1 v2 v3 : V3) : ℝ :=
  (1 / 2) * norm3 (cross3 (v2 - v1) (v3 - v1))

/-- Componentwise division of a vector by a scalar (numpy `v / a`). -/
noncomputable def vdiv (v : V3) (a : ℝ) : V3 :=
  (v.1 / a, v.2.1 / a, v.2.2 / a)

/-- The point mapping consumed by `compute_weighted_centroid`. -/
abbrev PtMap := ℤ → Option V3

/-- Look up the three vertices of a face (`points[face[0]]`, ...). -/
def resolve3 (points : PtMap) (f : Face) : Option (V3 × V3 × V3) :=
  match points f.1, points f.2.1, points f.2.2 with
  | some a, some b, some c => some (a, b, c)
  | _, _, _ => none

/-- Whether all three point IDs of a face are present in the mapping. -/
def resolves (points : PtMap) (f : Face) : Bool :=
  (resolve3 points f).isSome

/-- The accumulation loop of `compute_weighted_centroid`: `acc` is
`total_weighted_centroid`, `ta` is `total_area`.  A face with a missing
point ID raises (the spec's `DanglingReference`, carrying the face); after
the loop the weighted sum is divided by the total area if that is positive,
and otherwise the result is the absence sentinel `none`. -/
noncomputable def centroidLoop (points : PtMap) :
    List Face → V3 → ℝ → Except Face (Option V3)
  | [], acc, ta => if ta > 0 then .ok (some (vdiv acc ta)) else .ok none
  | f :: fs, acc, ta =>
    match resolve3 points f with
    | none => .error f
    | some (v1, v2, v3) =>
      centroidLoop points fs
        (acc + compute_triangle_area v1 v2 v3 • vdiv (v1 + v2 + v3) 3)
        (ta + compute_triangle_area v1 v2 v3)

/-- `compute_weighted_centroid`: run the loop from zero accumulators. -/
noncomputable def compute_weighted_centroid (points : PtMap) (faces : List Face) :
    Except Face (Option V3) :=
  centroidLoop points faces 0 0

/-- Specification-side per-face area: the face's triangle area when its
IDs resolve (and an irrelevant `0` otherwise, a case the claims always
exclude). -/
noncomputable def areaOf (points : PtMap) (f : Face) : ℝ :=
  match resolve3 points f with
  | some (a, b, c) => compute_triangle_area a b c
  | none => 0

/-- Specification-side per-face area-weighted centroid contribution. -/
noncomputable def wCentroidOf (points : PtMap) (f : Face) : V3 :=
  match resolve3 points f with
  | some (a, b, c) => compute_triangle_area a b c • vdiv (a + b + c) 3
  | none => 0

/-- Specification-side total area `sum(area_i)`. -/
noncomputable def specTotalArea (points : PtMap) (faces : List Face) : ℝ :=
  (faces.map (areaOf points)).sum

/-- Specification-side accumulated weighted sum `sum(area_i * centroid_i)`. -/
noncomputable def specWeightedSum (points : PtMap) (faces : List Face) : V3 :=
  (faces.map (wCentroidOf points)).sum

/-- Interpret extractor output over the reals, so the centroid pipeline can
consume it: each exact-decimal coordinate becomes the real it denotes. -/
noncomputable def decToReal (v : Dec) : ℝ := (v.mant : ℝ) * (10 : ℝ) ^ v.exp

/-- Lift an extracted point mapping to real coordinates. -/
noncomputable def liftPts (m : QPtMap) : PtMap :=
  fun i => (m i).map (fun c => (decToReal c.1, decToReal c.2.1, decToReal c.2.2))

/-- The full extract-then-centroid pipeline on a document. -/
noncomputable def centroidOfDoc (d : XDoc) :
    Except ExtractError (Except Face (Option V3)) :=
  match parse_tin_geometry d with
  | .error e => .error e
  | .ok (pts, faces) => .ok (compute_weighted_centroid (liftPts pts) faces)

/-- Decidable equality of `Except` results, for evaluating concrete runs. -/
instance {ε α : Type} [DecidableEq ε] [DecidableEq α] : DecidableEq (Except ε α) :=
  fun x y =>
    match x, y with
    | .error a, .error b =>
      if h : a = b then .isTrue (congrArg Except.error h)
      else .isFalse (fun hh => h (Except.error.inj hh))
    | .ok a, .ok b =>
      if h : a = b then .isTrue (congrArg Except.ok h)
      else .isFalse (fun hh => h (Except.ok.inj hh))
    | .error _, .ok _ => .isFalse (fun hh => Except.noConfusion hh)
    | .ok _, .error _ => .isFalse (fun hh => Except.noConfusion hh)

/-! ## Lemmas about the extractor -/

/-- A face whose tokens all parse as integers but do not number exactly
three is dropped by the face loop without affecting anything else. -/
theorem processFaces_skip (pre post : List (List Char)) (t : List Char)
    (ns : List ℤ) (hp : parseInts (splitWs t) = some ns) (hlen : ns.length ≠ 3) :
    processFaces (pre ++ t :: post) = processFaces (pre ++ post) := by
  induction pre with
  | nil =>
    rcases ns with _ | ⟨a, _ | ⟨b, _ | ⟨c, _ | ⟨e, l⟩⟩⟩⟩
    · simp [processFaces, hp]
    · simp [processFaces, hp]
    · simp [processFaces, hp]
    · exact (hlen (by simp)).elim
    · simp [processFaces, hp]
  | cons f pre ih =>
    show processFaces (f :: (pre ++ t :: post)) = processFaces (f :: (pre ++ post))
    cases hf : parseInts (splitWs f) with
    | none => simp [processFaces, hf]
    | some l =>
      rcases l with _ | ⟨a, _ | ⟨b, _ | ⟨c, _ | ⟨e, l'⟩⟩⟩⟩ <;>
        simp [processFaces, hf, ih]

/-- A successful face loop keeps exactly the three-token faces, in
document order. -/
theorem processFaces_ok_eq (fs : List (List Char)) :
    ∀ out, processFaces fs = .ok out → out = fs.filterMap faceOf := by
  induction fs with
  | nil =>
    intro out h
    cases h
    rfl
  | cons f fs ih =>
    intro out h
    cases hf : parseInts (splitWs f) with
    | none => simp [processFaces, hf] at h
    | some l =>
      rcases l with _ | ⟨a, _ | ⟨b, _ | ⟨c, _ | ⟨e, l'⟩⟩⟩⟩
      · simp only [processFaces, hf] at h
        simp [List.filterMap_cons, faceOf, hf, ih out h]
      · simp only [processFaces, hf] at h
        simp [List.filterMap_cons, faceOf, hf, ih out h]
      · simp only [processFaces, hf] at h
        simp [List.filterMap_cons, faceOf, hf, ih out h]
      · simp only [processFaces, hf] at h
        cases hrest : processFaces fs with
        | error e => rw [hrest] at h; cases h
        | ok out' =>
          rw [hrest] at h
          cases h
          simp [List.filterMap_cons, faceOf, hf, ih out' hrest]
      · simp only [processFaces, hf] at h
        simp [List.filterMap_cons, faceOf, hf, ih out h]

/-- Claim C8: an `F` element whose whitespace tokens all parse as integers
contributes a face exactly when three tokens result: on a successful
extraction the face list holds, at the element's position in document
order, exactly the faces of its three-token elements; and an element of
any other arity is silently discarded — the extractor's result on the
document with that element is identical to its result without it, with no
error, and therefore so is the computed centroid. -/
theorem claim_C8 (pre post : List (List Char)) (ps : List PElem) (t : List Char)
    (ns : List ℤ) (hp : parseInts (splitWs t) = some ns) :
    ((faceOf t).isSome = true ↔ ns.length = 3) ∧
      (∀ res, parse_tin_geometry ⟨pre ++ t :: post, ps⟩ = .ok res →
        res.2 = pre.filterMap faceOf ++ (faceOf t).toList ++
          post.filterMap faceOf) ∧
      (ns.length ≠ 3 →
        parse_tin_geometry ⟨pre ++ t :: post, ps⟩ =
            parse_tin_geometry ⟨pre ++ post, ps⟩ ∧
          centroidOfDoc ⟨pre ++ t :: post, ps⟩ =
            centroidOfDoc ⟨pre ++ post, ps⟩) := by
  refine ⟨?_, ?_, ?_⟩
  · rw [faceOf, hp]
    rcases ns with _ | ⟨a, _ | ⟨b, _ | ⟨c, _ | ⟨e, l'⟩⟩⟩⟩ <;> simp
  · intro res h
    cases hfs : processFaces (pre ++ t :: post) with
    | error e => simp [parse_tin_geometry, hfs] at h
    | ok faces =>
      cases hpp : processPoints ps emptyQMap with
      | error e => simp [parse_tin_geometry, hfs, hpp] at h
      | ok m =>
        simp only [parse_tin_geometry, hfs, hpp] at h
        cases h
        have := processFaces_ok_eq (pre ++ t :: post) faces hfs
        rw [this, List.filterMap_append, List.filterMap_cons]
        cases hft : faceOf t <;> simp [hft]
  · intro hlen
    have h := processFaces_skip pre post t ns hp hlen
    constructor
    · simp only [parse_tin_geometry, h]
    · simp only [centroidOfDoc, parse_tin_geometry, h]

/-- Witness for C8 at a concrete document holding a 4-token face
`"4 5 6 7"` and a 3-token face `"1 2 3"`: extraction succeeds, the
4-token face is not appended while the 3-token face is, and the result
equals that of the document without the 4-token face. -/
theorem claim_C8_witness :
    parse_tin_geometry ⟨["4 5 6 7".data, "1 2 3".data], []⟩ =
        .ok (emptyQMap, [((1 : ℤ), (2 : ℤ), (3 : ℤ))]) ∧
      ((faceOf "4 5 6 7".data).isSome = true ↔
        ([4, 5, 6, 7] : List ℤ).length = 3) ∧
      [((1 : ℤ), (2 : ℤ), (3 : ℤ))] =
        ([] : List (List Char)).filterMap faceOf ++
          (faceOf "4 5 6 7".data).toList ++ ["1 2 3".data].filterMap faceOf ∧
      parse_tin_geometry ⟨["4 5 6 7".data, "1 2 3".data], []⟩ =
        parse_tin_geometry ⟨["1 2 3".data], []⟩ := by
  have h := claim_C8 [] ["1 2 3".data] [] "4 5 6 7".data [4, 5, 6, 7] (by decide)
  exact ⟨rfl, h.1,
    h.2.1 (emptyQMap, [((1 : ℤ), (2 : ℤ), (3 : ℤ))]) rfl,
    (h.2.2 (by decide)).1⟩

/-- If some `F` element has an unparseable token, the face loop stops with
the uncaught token error, carrying some such element's text. -/
theorem processFaces_err (fs : List (List Char))
    (h : fs.any (fun t => (parseInts (splitWs t)).isNone) = true) :
    ∃ t0, processFaces fs = .error (.faceTokenError t0) := by
  induction fs with
  | nil => simp at h
  | cons f fs ih =>
    cases hf : parseInts (splitWs f) with
    | none => exact ⟨f, by simp [processFaces, hf]⟩
    | some l =>
      simp only [List.any_cons, hf, Option.isNone_some, Bool.false_or] at h
      obtain ⟨t0, h0⟩ := ih h
      rcases l with _ | ⟨a, _ | ⟨b, _ | ⟨c, _ | ⟨e, l'⟩⟩⟩⟩ <;>
        exact ⟨t0, by simp [processFaces, hf, h0]⟩

/-- Claim C10: an `F` element containing a token not parseable as an
integer makes the extractor raise (it is not silently filtered), and the
error raised is the uncaught token error, not the spec's `InvalidPoint`. -/
theorem claim_C10 (d : XDoc)
    (h : d.fs.any (fun t => (parseInts (splitWs t)).isNone) = true) :
    isFaceTokenErr (parse_tin_geometry d) = true ∧
      isInvalidPointErr (parse_tin_geometry d) = false := by
  obtain ⟨t0, h0⟩ := processFaces_err d.fs h
  simp [parse_tin_geometry, h0, isFaceTokenErr, isInvalidPointErr]

/-- Witness for C10: the document with the single face text `"1 a 3"`
raises the uncaught face-token error, not `InvalidPoint`. -/
theorem claim_C10_witness :
    (["1 a 3".data].any (fun t => (parseInts (splitWs t)).isNone) = true) ∧
      isFaceTokenErr (parse_tin_geometry ⟨["1 a 3".data], []⟩) = true ∧
      isInvalidPointErr (parse_tin_geometry ⟨["1 a 3".data], []⟩) = false :=
  ⟨by decide, claim_C10 ⟨["1 a 3".data], []⟩ (by decide)⟩

/-- The point loop raises `InvalidPoint` exactly when some `P` element has
a missing or unparseable `id` or an unparseable coordinate token;
wrong-arity elements whose tokens all parse are skipped, not errors. -/
theorem processPoints_err_iff (ps : List PElem) (m : QPtMap) :
    isInvalidPointErr (processPoints ps m) = ps.any pointRaises := by
  induction ps generalizing m with
  | nil => simp [processPoints, isInvalidPointErr]
  | cons p ps ih =>
    cases hid : p.idAttr with
    | none =>
      simp [processPoints, hid, isInvalidPointErr, pointRaises, idOf]
    | some s =>
      cases hpid : parseInt? s with
      | none =>
        simp [processPoints, hid, hpid, isInvalidPointErr, pointRaises, idOf]
      | some pid =>
        cases hfl : parseFloats (splitWs p.text) with
        | none =>
          simp [processPoints, hid, hpid, hfl, isInvalidPointErr, pointRaises,
            idOf]
        | some qs =>
          have hbad : pointRaises p = false := by
            simp [pointRaises, idOf, hid, hpid, hfl]
          rcases qs with _ | ⟨x, _ | ⟨y, _ | ⟨z, _ | ⟨w, l'⟩⟩⟩⟩ <;>
            simp [processPoints, hid, hpid, hfl, ih, hbad]

/-- When every face token parses, the face loop succeeds. -/
theorem processFaces_ok (fs : List (List Char))
    (h : fs.all (fun t => (parseInts (splitWs t)).isSome) = true) :
    ∃ out, processFaces fs = .ok out := by
  induction fs with
  | nil => exact ⟨[], rfl⟩
  | cons f fs ih =>
    simp only [List.all_cons, Bool.and_eq_true] at h
    obtain ⟨out, hout⟩ := ih h.2
    cases hf : parseInts (splitWs f) with
    | none => simp [hf] at h
    | some l =>
      rcases l with _ | ⟨a, _ | ⟨b, _ | ⟨c, _ | ⟨e, l'⟩⟩⟩⟩ <;>
        simp [processFaces, hf, hout]

/-- Claim C5 (amended): provided every `F` element's tokens parse as
integers (so the face loop, which runs first, does not raise), the
extractor fails with `InvalidPoint` iff some `P` element has a missing or
non-integer `id` attribute or a coordinate token that is not parseable as
a float.  A `P` element whose tokens all parse but do not number exactly
three is silently skipped, not an error. -/
theorem claim_C5_amended (d : XDoc) (hF : facesPhaseOk d = true) :
    isInvalidPointErr (parse_tin_geometry d) = d.ps.any pointRaises := by
  obtain ⟨out, hout⟩ := processFaces_ok d.fs hF
  have h := processPoints_err_iff d.ps emptyQMap
  cases hpp : processPoints d.ps emptyQMap with
  | error e =>
    rw [hpp] at h
    simp only [parse_tin_geometry, hout, hpp, ← h, isInvalidPointErr]
    cases e <;> rfl
  | ok m =>
    rw [hpp] at h
    simp [parse_tin_geometry, hout, hpp, ← h, isInvalidPointErr]

/-- Counterexample to C5 as stated: a `P` element with a valid `id` whose
text yields two floats (not exactly 3) is claimed to make the extractor
fail with `InvalidPoint`, but the source silently skips it and succeeds. -/
theorem claim_C5_counterexample :
    ¬ ((isInvalidPointErr
          (parse_tin_geometry ⟨[], [⟨some "1".data, "1.0 2.0".data⟩]⟩) = true) ↔
        (([⟨some "1".data, "1.0 2.0".data⟩] : List PElem).any specPointBad = true)) := by
  decide

/-- Witness for the amended C5 at a concrete document: with parseable
faces, a `P` element with a missing `id` attribute yields `InvalidPoint`. -/
theorem claim_C5_witness :
    (facesPhaseOk ⟨["1 2 3".data], [⟨none, "1 2 3".data⟩]⟩ = true) ∧
      isInvalidPointErr
          (parse_tin_geometry ⟨["1 2 3".data], [⟨none, "1 2 3".data⟩]⟩) =
        ([⟨none, "1 2 3".data⟩] : List PElem).any pointRaises :=
  ⟨by decide, claim_C5_amended ⟨["1 2 3".data], [⟨none, "1 2 3".data⟩]⟩ (by decide)⟩

/-- After a successful point loop, each ID maps to the coordinates of the
last valid `P` element carrying it, or keeps its initial binding if none
does. -/
theorem processPoints_lookup (ps : List PElem) :
    ∀ m m', processPoints ps m = .ok m' → ∀ i,
      m' i = ((ps.filter (validFor i)).getLast?).elim (m i) coordsOf := by
  induction ps with
  | nil =>
    intro m m' h i
    cases h
    simp
  | cons p ps ih =>
    intro m m' h i
    cases hid : p.idAttr with
    | none => simp [processPoints, hid] at h
    | some s =>
      cases hpid : parseInt? s with
      | none => simp [processPoints, hid, hpid] at h
      | some pid =>
        cases hfl : parseFloats (splitWs p.text) with
        | none => simp [processPoints, hid, hpid, hfl] at h
        | some qs =>
          rcases qs with _ | ⟨x, _ | ⟨y, _ | ⟨z, _ | ⟨w, l'⟩⟩⟩⟩
          case cons.cons.cons.nil =>
            -- exactly three tokens: the element is stored
            simp only [processPoints, hid, hpid, hfl] at h
            have hc : coordsOf p = some (x, y, z) := by simp [coordsOf, hfl]
            by_cases hpi : pid = i
            · have hv : validFor i p = true := by
                simp [validFor, idOf, hid, hpid, hpi, hc]
              rw [List.filter_cons_of_pos hv]
              have ihm := ih _ _ h i
              cases hq : ps.filter (validFor i) with
              | nil =>
                rw [hq] at ihm
                simp only [List.getLast?_nil, Option.elim] at ihm
                rw [ihm, updateMap, if_pos hpi.symm, List.getLast?_singleton,
                  Option.elim, hc]
              | cons q l =>
                rw [hq] at ihm
                rw [List.getLast?_cons_cons]
                obtain ⟨a, ha⟩ := Option.isSome_iff_exists.mp
                  ((List.getLast?_isSome (l := q :: l)).mpr (by simp))
                rw [ha] at ihm ⊢
                exact ihm
            · have hv : validFor i p = false := by
                simp [validFor, idOf, hid, hpid, hpi]
              rw [List.filter_cons_of_neg (by simp [hv])]
              have ihm := ih _ _ h i
              rwa [updateMap, if_neg (fun hh => hpi hh.symm)] at ihm
          all_goals
            -- zero, one, two, or more than three tokens: skipped
            simp only [processPoints, hid, hpid, hfl] at h
            have hv : validFor i p = false := by
              simp [validFor, idOf, hid, hpid, coordsOf, hfl]
            rw [List.filter_cons_of_neg (by simp [hv])]
            exact ih _ _ h i

/-- Claim C9: on a successfully extracted document, the point mapping at
ID `i` holds the coordinates of the last `P` element in document order
whose `id` parses to `i` and whose text yields exactly three floats;
earlier such elements are overwritten. -/
theorem claim_C9 (d : XDoc) (res : QPtMap × List Face) (i : ℤ) (p : PElem)
    (h : parse_tin_geometry d = .ok res)
    (hl : (d.ps.filter (validFor i)).getLast? = some p) :
    res.1 i = coordsOf p := by
  cases hfs : processFaces d.fs with
  | error e => simp [parse_tin_geometry, hfs] at h
  | ok faces =>
    cases hpp : processPoints d.ps emptyQMap with
    | error e => simp [parse_tin_geometry, hfs, hpp] at h
    | ok m =>
      simp only [parse_tin_geometry, hfs, hpp] at h
      cases h
      have := processPoints_lookup d.ps emptyQMap m hpp i
      rw [hl, Option.elim] at this
      exact this

/-- Witness for C9: a document with two `P` elements both carrying
`id="1"` extracts without error, and the mapping holds the coordinates of
the second (last) element. -/
theorem claim_C9_witness :
    parse_tin_geometry
        ⟨[], [⟨some "1".data, "1 1 1".data⟩, ⟨some "1".data, "2 3 4".data⟩]⟩ =
      .ok (updateMap (updateMap emptyQMap 1 (⟨1, 0⟩, ⟨1, 0⟩, ⟨1, 0⟩)) 1
        (⟨2, 0⟩, ⟨3, 0⟩, ⟨4, 0⟩), []) ∧
      updateMap (updateMap emptyQMap 1 (⟨1, 0⟩, ⟨1, 0⟩, ⟨1, 0⟩)) 1
          (⟨2, 0⟩, ⟨3, 0⟩, ⟨4, 0⟩) 1 =
        some (⟨2, 0⟩, ⟨3, 0⟩, ⟨4, 0⟩) := by
  refine ⟨rfl, ?_⟩
  have h := claim_C9
    ⟨[], [⟨some "1".data, "1 1 1".data⟩, ⟨some "1".data, "2 3 4".data⟩]⟩
    (updateMap (updateMap emptyQMap 1 (⟨1, 0⟩, ⟨1, 0⟩, ⟨1, 0⟩)) 1
      (⟨2, 0⟩, ⟨3, 0⟩, ⟨4, 0⟩), [])
    1 ⟨some "1".data, "2 3 4".data⟩ rfl (by decide)
  exact h.trans (by decide)

/-! ## Lemmas about the scaler -/

/-- Characterization of the `F` rewrite on one element: it fails exactly on
the source's bad-face condition, and on success produces the totalized
rewrite. -/
theorem scaleFText_char (t : List Char) :
    (isOkB (scaleFText t) = !scalerBadF t) ∧
      (∀ r, scaleFText t = .ok r → r = scaleFTextTotal t) := by
  by_cases he : t.isEmpty
  · constructor
    · simp [scaleFText, he, isOkB, scalerBadF]
    · intro r hr
      simp only [scaleFText, he, if_true, if_pos] at hr
      cases hr
      simp [scaleFTextTotal, scaleFText, he]
  · cases hp : parseInts (splitSpace t) with
    | none =>
      constructor
      · simp [scaleFText, he, hp, isOkB, scalerBadF]
      · intro r hr
        simp [scaleFText, he, hp] at hr
    | some ns =>
      constructor
      · simp [scaleFText, he, hp, isOkB, scalerBadF]
      · intro r hr
        simp only [scaleFText, he, if_neg, Bool.false_eq_true,
          not_false_iff, hp] at hr
        cases hr
        simp [scaleFTextTotal, scaleFText, he, hp]

/-- Characterization of the `P` rewrite on one element: it fails exactly on
the source's bad-point condition (an unparseable token or fewer than three
tokens), and on success produces the totalized rewrite. -/
theorem scalePText_char (s : Dec) (t : List Char) :
    (isOkB (scalePText s t) = !scalerBadP t) ∧
      (∀ r, scalePText s t = .ok r → r = scalePTextTotal s t) := by
  by_cases he : t.isEmpty
  · constructor
    · simp [scalePText, he, isOkB, scalerBadP]
    · intro r hr
      simp only [scalePText, he, if_true, if_pos] at hr
      cases hr
      simp [scalePTextTotal, scalePText, he]
  · cases hp : parseFloats (splitSpace t) with
    | none =>
      constructor
      · simp [scalePText, he, hp, isOkB, scalerBadP]
      · intro r hr
        simp [scalePText, he, hp] at hr
    | some qs =>
      rcases qs with _ | ⟨x, _ | ⟨y, _ | ⟨z, rest⟩⟩⟩
      · constructor
        · simp [scalePText, he, hp, isOkB, scalerBadP]
        · intro r hr
          simp [scalePText, he, hp] at hr
      · constructor
        · simp [scalePText, he, hp, isOkB, scalerBadP]
        · intro r hr
          simp [scalePText, he, hp] at hr
      · constructor
        · simp [scalePText, he, hp, isOkB, scalerBadP]
        · intro r hr
          simp [scalePText, he, hp] at hr
      · constructor
        · simp [scalePText, he, hp, isOkB, scalerBadP]
        · intro r hr
          simp only [scalePText, he, if_neg, Bool.false_eq_true,
            not_false_iff, hp] at hr
          cases hr
          simp [scalePTextTotal, scalePText, he, hp]

/-- Characterization of an elementwise rewriting loop from the
characterization of its body. -/
theorem scaleList_char (g : List Char → Except (List Char) (List Char))
    (bad : List Char → Bool) (tot : List Char → List Char)
    (hg : ∀ t, (isOkB (g t) = !bad t) ∧ (∀ r, g t = .ok r → r = tot t)) :
    ∀ ts, (isOkB (scaleList g ts) = !ts.any bad) ∧
      (∀ rs, scaleList g ts = .ok rs → rs = ts.map tot) := by
  intro ts
  induction ts with
  | nil => exact ⟨by simp [scaleList, isOkB], by intro rs h; cases h; simp⟩
  | cons t ts ih =>
    cases hgt : g t with
    | error e =>
      have hb : bad t = true := by
        have := (hg t).1
        rw [hgt] at this
        simpa [isOkB] using this.symm
      constructor
      · simp [scaleList, hgt, isOkB, hb]
      · intro rs h
        simp [scaleList, hgt] at h
    | ok t' =>
      have hb : bad t = false := by
        have := (hg t).1
        rw [hgt] at this
        simpa [isOkB] using this.symm
      have ht' : t' = tot t := (hg t).2 t' hgt
      cases hrest : scaleList g ts with
      | error e =>
        have := ih.1
        rw [hrest] at this
        constructor
        · simp only [scaleList, hgt, hrest, isOkB, List.any_cons, hb,
            Bool.false_or]
          simpa [isOkB] using this
        · intro rs h
          simp [scaleList, hgt, hrest] at h
      | ok rs' =>
        have hok := ih.1
        rw [hrest] at hok
        have hrs' : rs' = ts.map tot := ih.2 rs' hrest
        constructor
        · simp only [scaleList, hgt, hrest, isOkB, List.any_cons, hb,
            Bool.false_or]
          simpa [isOkB] using hok
        · intro rs h
          simp only [scaleList, hgt, hrest] at h
          cases h
          simp [ht', hrs']

/-- Claim C6 (amended): with tokens obtained by splitting on single space
characters (empty tokens from consecutive separators included), the scaler
fails iff some nonempty `F` element has a token not parseable as an
integer, or some nonempty `P` element has a token not parseable as a float
or fewer than three tokens; otherwise every `F` and `P` element is
rewritten without error. -/
theorem claim_C6_amended (s : Dec) (d : SDoc) :
    (isOkB (scaleDoc s d) = !scalerBad d) ∧
      (scalerBad d = false →
        scaleDoc s d = .ok ⟨d.fs.map scaleFTextTotal, d.ps.map (scalePTextTotal s)⟩) := by
  have hF := scaleList_char scaleFText scalerBadF scaleFTextTotal scaleFText_char d.fs
  have hP := scaleList_char (scalePText s) scalerBadP (scalePTextTotal s)
    (scalePText_char s) d.ps
  constructor
  · cases hfs : scaleList scaleFText d.fs with
    | error e =>
      have h1 := hF.1
      rw [hfs] at h1
      simp only [isOkB] at h1
      simp [scaleDoc, hfs, isOkB, scalerBad, ← h1]
    | ok fs' =>
      have h1 := hF.1
      rw [hfs] at h1
      simp only [isOkB] at h1
      cases hps : scaleList (scalePText s) d.ps with
      | error e =>
        have h2 := hP.1
        rw [hps] at h2
        simp only [isOkB] at h2
        simp [scaleDoc, hfs, hps, isOkB, scalerBad, ← h1, ← h2]
      | ok ps' =>
        have h2 := hP.1
        rw [hps] at h2
        simp only [isOkB] at h2
        simp [scaleDoc, hfs, hps, isOkB, scalerBad, ← h1, ← h2]
  · intro hgood
    simp only [scalerBad, Bool.or_eq_false_iff] at hgood
    cases hfs : scaleList scaleFText d.fs with
    | error e =>
      have h1 := hF.1
      rw [hfs] at h1
      simp [isOkB, hgood.1] at h1
    | ok fs' =>
      cases hps : scaleList (scalePText s) d.ps with
      | error e =>
        have h2 := hP.1
        rw [hps] at h2
        simp [isOkB, hgood.2] at h2
      | ok ps' =>
        have e1 : fs' = d.fs.map scaleFTextTotal := hF.2 fs' hfs
        have e2 : ps' = d.ps.map (scalePTextTotal s) := hP.2 ps' hps
        simp [scaleDoc, hfs, hps, e1, e2]

/-- Counterexample to C6 as stated: the `P` element text `"1.0 2.0\t3.0"`
splits on *whitespace* into three float tokens, so the claim promises a
rewrite without error, but the source splits on single spaces only, gets
the unparseable token `"2.0\t3.0"`, and fails. -/
theorem claim_C6_counterexample :
    ¬ (scalerBadWs ⟨[], ["1.0 2.0\t3.0".data]⟩ = false →
        isOkB (scaleDoc ⟨2, 0⟩ ⟨[], ["1.0 2.0\t3.0".data]⟩) = true) := by
  decide

/-- Witness for the amended C6 at a concrete document with one face and
one point: no element is bad, and every element is rewritten. -/
theorem claim_C6_witness :
    (scalerBad ⟨["1 2".data], ["1.5 2.0 3.25".data]⟩ = false) ∧
      scaleDoc ⟨2, 0⟩ ⟨["1 2".data], ["1.5 2.0 3.25".data]⟩ =
        .ok ⟨["1 2".data], ["3.000000000000 4.000000000000 3.2500".data]⟩ := by
  refine ⟨by decide, ?_⟩
  have h := (claim_C6_amended ⟨2, 0⟩ ⟨["1 2".data], ["1.5 2.0 3.25".data]⟩).2
    (by decide)
  exact h.trans (by decide)

/-! ## Lemmas about decimal rendering -/

/-- Every entry of a digit expansion is a digit. -/
theorem natDigitsAux_mem_lt :
    ∀ fuel n k, k ∈ natDigitsAux fuel n → k < 10 := by
  intro fuel
  induction fuel with
  | zero => intro n k h; simp [natDigitsAux] at h
  | succ fuel ih =>
    intro n k h
    cases n with
    | zero => simp [natDigitsAux] at h
    | succ n =>
      simp only [natDigitsAux, List.mem_cons] at h
      rcases h with h | h
      · rw [h]; exact Nat.mod_lt _ (by norm_num)
      · exact ih _ _ h

/-- A number below `10 ^ d` has at most `d` digits. -/
theorem natDigitsAux_len_le :
    ∀ fuel d n, n ≤ fuel → n < 10 ^ d → (natDigitsAux fuel n).length ≤ d := by
  intro fuel
  induction fuel with
  | zero => intro d n _ _; cases n <;> simp [natDigitsAux]
  | succ fuel ih =>
    intro d n h1 h2
    cases n with
    | zero => simp [natDigitsAux]
    | succ n =>
      cases d with
      | zero => simp at h2
      | succ d =>
        have hd : (n + 1) / 10 < 10 ^ d := by
          rw [Nat.div_lt_iff_lt_mul (by norm_num : 0 < 10)]
          calc n + 1 < 10 ^ (d + 1) := h2
            _ = 10 ^ d * 10 := by rw [pow_succ]
        have hf : (n + 1) / 10 ≤ fuel := by
          have := Nat.div_lt_self (Nat.succ_pos n) (by norm_num : 1 < 10)
          omega
        simpa [natDigitsAux] using Nat.succ_le_succ (ih d _ hf hd)

/-- Digit characters are digits and are neither `'.'` nor `' '` nor `'-'`. -/
theorem digitChar10_props :
    ∀ k, k < 10 → (digitChar10 k).isDigit = true ∧
      ((digitChar10 k == '.') = false) ∧ ((digitChar10 k == ' ') = false) := by
  decide

/-- Characters of a digit expansion are digits, not `'.'`, not `' '`. -/
theorem natDigitChars_props (n : ℕ) :
    ∀ c ∈ natDigitChars n, c.isDigit = true ∧
      ((c == '.') = false) ∧ ((c == ' ') = false) := by
  intro c hc
  simp only [natDigitChars, List.mem_map, List.mem_reverse] at hc
  obtain ⟨k, hk, rfl⟩ := hc
  exact digitChar10_props k (natDigitsAux_mem_lt _ _ _ hk)

/-- Characters of a rendered natural number are digits, not `'.'`, not
`' '`. -/
theorem natChars_props (n : ℕ) :
    ∀ c ∈ natChars n, c.isDigit = true ∧
      ((c == '.') = false) ∧ ((c == ' ') = false) := by
  intro c hc
  by_cases h : n = 0
  · simp [natChars, h] at hc
    rw [hc]
    refine ⟨rfl, rfl, rfl⟩
  · rw [natChars, if_neg h] at hc
    exact natDigitChars_props n c hc

/-- The fractional block has exactly the requested width. -/
theorem fracChars_len (m d : ℕ) (h : m < 10 ^ d) :
    (fracChars m d).length = d := by
  have hlen : (natDigitChars m).length ≤ d := by
    have := natDigitsAux_len_le m d m le_rfl h
    simpa [natDigitChars] using this
  simp only [fracChars, List.length_append, List.length_replicate]
  omega

/-- Characters of the fractional block are digits (in particular neither
`'.'` nor `' '`). -/
theorem fracChars_props (m d : ℕ) :
    ∀ c ∈ fracChars m d, c.isDigit = true ∧
      ((c == '.') = false) ∧ ((c == ' ') = false) := by
  intro c hc
  simp only [fracChars, List.mem_append, List.mem_replicate] at hc
  rcases hc with ⟨-, rfl⟩ | hc
  · refine ⟨rfl, rfl, rfl⟩
  · exact natDigitChars_props m c hc

/-- Dropping while a predicate holds skips over a block on which it holds
everywhere. -/
theorem dropWhile_append_all (p : Char → Bool) (l1 l2 : List Char)
    (h : ∀ c ∈ l1, p c = true) :
    (l1 ++ l2).dropWhile p = l2.dropWhile p := by
  induction l1 with
  | nil => simp
  | cons c l1 ih =>
    have hc := h c (List.mem_cons_self c l1)
    simp only [List.cons_append, List.dropWhile_cons, hc, if_true]
    exact ih (fun c hcm => h c (List.mem_cons_of_mem _ hcm))

/-- The characters after the decimal point of a fixed-point rendering are
exactly its fractional block. -/
theorem decimalsOf_fmtFixed (v : Dec) (d : ℕ) :
    decimalsOf (fmtFixed v d) =
      fracChars ((decRound v d).natAbs % 10 ^ d) d := by
  unfold fmtFixed decimalsOf
  rw [List.append_assoc, dropWhile_append_all, dropWhile_append_all]
  · simp [List.dropWhile_cons]
  · intro c hc
    have := (natChars_props _ c hc).2.1
    simp only [Bool.not_eq_true']
    exact this
  · intro c hc
    rcases (if (decRound v d) < 0 then ['-'] else []).eq_nil_or_concat with hn | _
    · rw [hn] at hc; simp at hc
    · by_cases hneg : (decRound v d) < 0
      · rw [if_pos hneg] at hc
        simp only [List.mem_singleton] at hc
        rw [hc]
        rfl
      · rw [if_neg hneg] at hc
        simp at hc

/-- A fixed-point rendering has exactly `d` characters after its decimal
point, all of them digits. -/
theorem fmtFixed_decimals (v : Dec) (d : ℕ) :
    (decimalsOf (fmtFixed v d)).length = d ∧
      (decimalsOf (fmtFixed v d)).all Char.isDigit = true := by
  rw [decimalsOf_fmtFixed]
  constructor
  · exact fracChars_len _ d (Nat.mod_lt _ (Nat.pos_pow_of_pos d (by norm_num)))
  · rw [List.all_eq_true]
    intro c hc
    exact (fracChars_props _ _ c hc).1

/-- Splitting a separator-free block yields a single piece. -/
theorem splitAux_no_sep (p : Char → Bool) :
    ∀ (l acc : List Char), (∀ c ∈ l, p c = false) →
      splitAux p l acc = [acc.reverse ++ l] := by
  intro l
  induction l with
  | nil => intro acc _; simp [splitAux]
  | cons c l ih =>
    intro acc h
    have hc := h c (List.mem_cons_self c l)
    simp only [splitAux, hc, Bool.false_eq_true, if_false]
    rw [ih (c :: acc) (fun x hx => h x (List.mem_cons_of_mem _ hx))]
    simp

/-- Splitting past a separator-free block followed by a separator emits
that block as one piece. -/
theorem splitAux_sep (p : Char → Bool) (sep : Char) (hsep : p sep = true) :
    ∀ (l1 rest acc : List Char), (∀ c ∈ l1, p c = false) →
      splitAux p (l1 ++ sep :: rest) acc =
        (acc.reverse ++ l1) :: splitAux p rest [] := by
  intro l1
  induction l1 with
  | nil => intro rest acc _; simp [splitAux, hsep]
  | cons c l1 ih =>
    intro rest acc h
    have hc := h c (List.mem_cons_self c l1)
    simp only [List.cons_append, splitAux, hc, Bool.false_eq_true, if_false]
    show splitAux p (l1 ++ sep :: rest) (c :: acc) =
      (acc.reverse ++ c :: l1) :: splitAux p rest []
    rw [ih rest (c :: acc) (fun x hx => h x (List.mem_cons_of_mem _ hx))]
    simp

/-- No character of a fixed-point rendering is a space. -/
theorem fmtFixed_no_space (v : Dec) (d : ℕ) :
    ∀ c ∈ fmtFixed v d, (c == ' ') = false := by
  intro c hc
  unfold fmtFixed at hc
  simp only [List.mem_append, List.mem_cons] at hc
  rcases hc with (hs | hn) | hd | hf
  · by_cases hneg : decRound v d < 0
    · rw [if_pos hneg] at hs
      simp only [List.mem_singleton] at hs
      rw [hs]; rfl
    · rw [if_neg hneg] at hs
      simp at hs
  · exact (natChars_props _ c hn).2.2
  · rw [hd]; rfl
  · exact (fracChars_props _ _ c hf).2.2

/-- Splitting the space-join of three space-free pieces recovers them. -/
theorem splitSpace_join3 (a b c : List Char)
    (ha : ∀ x ∈ a, (x == ' ') = false) (hb : ∀ x ∈ b, (x == ' ') = false)
    (hc : ∀ x ∈ c, (x == ' ') = false) :
    splitSpace (a ++ ' ' :: (b ++ ' ' :: c)) = [a, b, c] := by
  have conv : ∀ (l : List Char), (∀ x ∈ l, (x == ' ') = false) →
      ∀ x ∈ l, (fun ch => decide (ch = ' ')) x = false := by
    intro l hl x hx
    have := hl x hx
    simpa [beq_eq_false_iff_ne] using this
  show splitAux (fun ch => decide (ch = ' ')) (a ++ ' ' :: (b ++ ' ' :: c)) [] = [a, b, c]
  rw [splitAux_sep _ ' ' (by decide) a _ [] (conv a ha),
    splitAux_sep _ ' ' (by decide) b _ [] (conv b hb),
    splitAux_no_sep _ c [] (conv c hc)]
  simp

/-- Claim C7: on a `P` element whose text tokenizes into exactly three
float tokens with values `x`, `y`, `z`, and for every scale factor `s`
(negative and zero included), the scaler succeeds and rewrites the text to
three tokens: `x*s` and `y*s` each rendered with exactly 12 digits after
the decimal point, and `z` unscaled rendered with exactly 4 digits after
the decimal point. -/
theorem claim_C7 (s x y z : Dec) (t tx ty tz : List Char)
    (hsplit : splitSpace t = [tx, ty, tz])
    (hx : parseFloat? tx = some x) (hy : parseFloat? ty = some y)
    (hz : parseFloat? tz = some z) :
    scalePText s t =
        .ok (fmtFixed (decMul x s) 12 ++
          ' ' :: (fmtFixed (decMul y s) 12 ++ ' ' :: fmtFixed z 4)) ∧
      splitSpace (scalePTextTotal s t) =
        [fmtFixed (decMul x s) 12, fmtFixed (decMul y s) 12, fmtFixed z 4] ∧
      ((decimalsOf (fmtFixed (decMul x s) 12)).length = 12 ∧
        (decimalsOf (fmtFixed (decMul x s) 12)).all Char.isDigit = true) ∧
      ((decimalsOf (fmtFixed (decMul y s) 12)).length = 12 ∧
        (decimalsOf (fmtFixed (decMul y s) 12)).all Char.isDigit = true) ∧
      ((decimalsOf (fmtFixed z 4)).length = 4 ∧
        (decimalsOf (fmtFixed z 4)).all Char.isDigit = true) := by
  have he : t.isEmpty = false := by
    cases t with
    | nil => simp [splitSpace, splitKeep, splitAux] at hsplit
    | cons c l => rfl
  have hfl : parseFloats (splitSpace t) = some [x, y, z] := by
    rw [hsplit]
    simp [parseFloats, hx, hy, hz]
  have h1 : scalePText s t =
      .ok (fmtFixed (decMul x s) 12 ++
        ' ' :: (fmtFixed (decMul y s) 12 ++ ' ' :: fmtFixed z 4)) := by
    simp [scalePText, he, hfl, joinSpace]
  refine ⟨h1, ?_, fmtFixed_decimals _ 12, fmtFixed_decimals _ 12,
    fmtFixed_decimals _ 4⟩
  have htot : scalePTextTotal s t =
      fmtFixed (decMul x s) 12 ++
        ' ' :: (fmtFixed (decMul y s) 12 ++ ' ' :: fmtFixed z 4) := by
    rw [scalePTextTotal, h1]
  rw [htot]
  exact splitSpace_join3 _ _ _ (fmtFixed_no_space _ 12) (fmtFixed_no_space _ 12)
    (fmtFixed_no_space _ 4)

/-- Witness for C7: scaling `"1.5 2.0 3.25"` by 2 yields
`"3.000000000000 4.000000000000 3.2500"`, with the claimed digit counts. -/
theorem claim_C7_witness :
    scalePText ⟨2, 0⟩ "1.5 2.0 3.25".data =
        .ok "3.000000000000 4.000000000000 3.2500".data ∧
      (decimalsOf (fmtFixed (decMul ⟨15, -1⟩ ⟨2, 0⟩) 12)).length = 12 ∧
      (decimalsOf (fmtFixed ⟨325, -2⟩ 4)).length = 4 := by
  have h := claim_C7 ⟨2, 0⟩ ⟨15, -1⟩ ⟨20, -1⟩ ⟨325, -2⟩ "1.5 2.0 3.25".data
    "1.5".data "2.0".data "3.25".data (by decide) (by decide) (by decide)
    (by decide)
  exact ⟨h.1.trans (by decide), h.2.2.1.1, h.2.2.2.2.1⟩

/-! ## Lemmas about the geometry -/

/-- The cross product is compatible with scalar multiples. -/
theorem cross3_smul_smul (a b : ℝ) (u w : V3) :
    cross3 (a • u) (b • w) = (a * b) • cross3 u w := by
  simp only [cross3, Prod.smul_fst, Prod.smul_snd, Prod.smul_mk, smul_eq_mul,
    Prod.mk.injEq]
  refine ⟨by ring, by ring, by ring⟩

/-- The cross product of a vector with itself vanishes. -/
theorem cross3_self (u : V3) : cross3 u u = 0 := by
  show cross3 u u = ((0 : ℝ), (0 : ℝ), (0 : ℝ))
  simp only [cross3, Prod.mk.injEq]
  refine ⟨by ring, by ring, by ring⟩

/-- The cross product with a zero left factor vanishes. -/
theorem cross3_zero_left (w : V3) : cross3 0 w = 0 := by
  show cross3 ((0 : ℝ), (0 : ℝ), (0 : ℝ)) w = ((0 : ℝ), (0 : ℝ), (0 : ℝ))
  simp only [cross3, Prod.mk.injEq]
  refine ⟨by ring, by ring, by ring⟩

/-- The cross product with a zero right factor vanishes. -/
theorem cross3_zero_right (u : V3) : cross3 u 0 = 0 := by
  show cross3 u ((0 : ℝ), (0 : ℝ), (0 : ℝ)) = ((0 : ℝ), (0 : ℝ), (0 : ℝ))
  simp only [cross3, Prod.mk.injEq]
  refine ⟨by ring, by ring, by ring⟩

/-- The norm of the zero vector is zero. -/
theorem norm3_zero : norm3 (0 : V3) = 0 := by
  show norm3 ((0 : ℝ), (0 : ℝ), (0 : ℝ)) = 0
  simp [norm3]

/-- Claim C2: `compute_triangle_area` returns half the Euclidean norm of
the cross product of the two edge vectors, and returns exactly 0 for every
degenerate triangle (collinear or duplicate vertices). -/
theorem claim_C2 (v1 v2 v3 : V3) :
    compute_triangle_area v1 v2 v3 =
        (1 / 2) * norm3 (cross3 (v2 - v1) (v3 - v1)) ∧
      (Collinear ℝ {v1, v2, v3} ∨ v1 = v2 ∨ v1 = v3 ∨ v2 = v3 →
        compute_triangle_area v1 v2 v3 = 0) := by
  refine ⟨rfl, fun hdeg => ?_⟩
  suffices hcross : cross3 (v2 - v1) (v3 - v1) = 0 by
    rw [compute_triangle_area, hcross, norm3_zero, mul_zero]
  rcases hdeg with hcol | h12 | h13 | h23
  · rw [collinear_iff_of_mem (Set.mem_insert v1 {v2, v3})] at hcol
    obtain ⟨v, hv⟩ := hcol
    obtain ⟨r2, h2⟩ := hv v2 (by simp)
    obtain ⟨r3, h3⟩ := hv v3 (by simp)
    rw [vadd_eq_add] at h2 h3
    have e2 : v2 - v1 = r2 • v := by rw [h2, add_sub_cancel_right]
    have e3 : v3 - v1 = r3 • v := by rw [h3, add_sub_cancel_right]
    rw [e2, e3, cross3_smul_smul, cross3_self, smul_zero]
  · rw [← h12, sub_self, cross3_zero_left]
  · rw [← h13, sub_self, cross3_zero_right]
  · rw [h23, cross3_self]

/-- Witness for C2: a degenerate triangle with a duplicate vertex has area
exactly zero. -/
theorem claim_C2_witness :
    compute_triangle_area ((0 : ℝ), (0 : ℝ), (0 : ℝ))
        ((0 : ℝ), (0 : ℝ), (0 : ℝ)) ((1 : ℝ), (2 : ℝ), (3 : ℝ)) = 0 :=
  (claim_C2 _ _ _).2 (Or.inr (Or.inl rfl))

/-- The accumulation loop equals the specification sums: starting from
accumulators `acc`, `ta`, it returns the weighted sum over the whole list
divided by the total area when that total is positive, and the sentinel
otherwise. -/
theorem centroidLoop_eq (points : PtMap) (faces : List Face)
    (h : faces.all (resolves points) = true) :
    ∀ acc ta, centroidLoop points faces acc ta =
      if 0 < ta + specTotalArea points faces
      then .ok (some (vdiv (acc + specWeightedSum points faces)
        (ta + specTotalArea points faces)))
      else .ok none := by
  induction faces with
  | nil =>
    intro acc ta
    simp [centroidLoop, specTotalArea, specWeightedSum, gt_iff_lt]
  | cons f fs ih =>
    intro acc ta
    simp only [List.all_cons, Bool.and_eq_true] at h
    obtain ⟨hf, hfs⟩ := h
    obtain ⟨tri, hr⟩ := Option.isSome_iff_exists.mp hf
    obtain ⟨va, vb, vc⟩ := tri
    simp only [centroidLoop, hr]
    rw [ih hfs]
    have hta : specTotalArea points (f :: fs) =
        compute_triangle_area va vb vc + specTotalArea points fs := by
      simp [specTotalArea, areaOf, hr]
    have hws : specWeightedSum points (f :: fs) =
        compute_triangle_area va vb vc • vdiv (va + vb + vc) 3 +
          specWeightedSum points fs := by
      simp [specWeightedSum, wCentroidOf, hr]
    rw [hta, hws, add_assoc, add_assoc]

/-- Claim C1: whenever every face's three point IDs resolve and the total
accumulated area is positive, `compute_weighted_centroid` returns the
accumulated `sum(area_i * centroid_i)` divided componentwise by
`sum(area_i)`, where each `centroid_i` is the unweighted vertex average. -/
theorem claim_C1 (points : PtMap) (faces : List Face)
    (h1 : faces.all (resolves points) = true)
    (h2 : 0 < specTotalArea points faces) :
    compute_weighted_centroid points faces =
      .ok (some (vdiv (specWeightedSum points faces)
        (specTotalArea points faces))) := by
  rw [compute_weighted_centroid, centroidLoop_eq points faces h1 0 0]
  simp [h2]

/-- Claim C3: whenever every face resolves and the total accumulated area
is exactly zero — in particular on the empty face list, and when every
face is degenerate — `compute_weighted_centroid` returns the sentinel
`none`, never a computed point. -/
theorem claim_C3 (points : PtMap) (faces : List Face) :
    (faces.all (resolves points) = true → specTotalArea points faces = 0 →
      compute_weighted_centroid points faces = .ok none) ∧
      compute_weighted_centroid points [] = .ok none ∧
      ((∀ f ∈ faces, areaOf points f = 0) →
        faces.all (resolves points) = true →
        compute_weighted_centroid points faces = .ok none) := by
  have hzero : ∀ (h1 : faces.all (resolves points) = true),
      specTotalArea points faces = 0 →
      compute_weighted_centroid points faces = .ok none := by
    intro h1 h0
    rw [compute_weighted_centroid, centroidLoop_eq points faces h1 0 0, h0]
    simp
  refine ⟨hzero, ?_, ?_⟩
  · simp [compute_weighted_centroid, centroidLoop]
  · intro hdeg h1
    refine hzero h1 ?_
    rw [specTotalArea]
    refine List.sum_eq_zero ?_
    intro x hx
    obtain ⟨f, hf, rfl⟩ := List.mem_map.mp hx
    exact hdeg f hf

/-- Witness for C3: on the empty face list the result is the sentinel. -/
theorem claim_C3_witness :
    (([] : List Face).all (resolves (fun _ => none)) = true) ∧
      specTotalArea (fun _ => none) [] = 0 ∧
      compute_weighted_centroid (fun _ => none) [] = .ok none :=
  ⟨rfl, by simp [specTotalArea],
    (claim_C3 (fun _ => none) []).1 rfl (by simp [specTotalArea])⟩

/-- A face with an unresolvable point ID makes the loop fail with that
face, whatever the accumulators hold. -/
theorem centroidLoop_err (points : PtMap) (faces : List Face)
    (h : faces.any (fun f => !(resolves points f)) = true) :
    ∀ acc ta, ∃ f0 ∈ faces, resolves points f0 = false ∧
      centroidLoop points faces acc ta = .error f0 := by
  induction faces with
  | nil => simp at h
  | cons f fs ih =>
    intro acc ta
    cases hr : resolve3 points f with
    | none =>
      refine ⟨f, List.mem_cons_self f fs, by simp [resolves, hr], ?_⟩
      simp [centroidLoop, hr]
    | some tri =>
      have hres : resolves points f = true := by simp [resolves, hr]
      simp only [List.any_cons, hres, Bool.not_true, Bool.false_or] at h
      obtain ⟨va, vb, vc⟩ := tri
      obtain ⟨f0, hmem, hr0, heq⟩ := ih h
        (acc + compute_triangle_area va vb vc • vdiv (va + vb + vc) 3)
        (ta + compute_triangle_area va vb vc)
      refine ⟨f0, List.mem_cons_of_mem f hmem, hr0, ?_⟩
      simp only [centroidLoop, hr]
      exact heq

/-- Claim C4: on a face list containing a face with a point ID absent from
the mapping, `compute_weighted_centroid` fails, carrying such an offending
face, and computes no centroid value. -/
theorem claim_C4 (points : PtMap) (faces : List Face)
    (h : faces.any (fun f => !(resolves points f)) = true) :
    ∃ f0 ∈ faces, resolves points f0 = false ∧
      compute_weighted_centroid points faces = .error f0 :=
  centroidLoop_err points faces h 0 0

/-- Witness for C4: with an empty point mapping, the face `(1, 2, 3)`
triggers the dangling-reference failure carrying that face. -/
theorem claim_C4_witness :
    compute_weighted_centroid (fun _ => none) [((1 : ℤ), (2 : ℤ), (3 : ℤ))] =
      .error (1, 2, 3) := by
  obtain ⟨f0, hmem, -, heq⟩ :=
    claim_C4 (fun _ => none) [((1 : ℤ), (2 : ℤ), (3 : ℤ))] (by decide)
  simp only [List.mem_singleton] at hmem
  rw [hmem] at heq
  exact heq

/-- Witness for C1: the single unit right triangle with vertices
`(0,0,0)`, `(1,0,0)`, `(0,1,0)` resolves, has positive total area `1/2`,
and the computed centroid is the specification quotient. -/
theorem claim_C1_witness :
    (([((1 : ℤ), (2 : ℤ), (3 : ℤ))] : List Face).all
        (resolves (fun i => if i = 1 then some ((0 : ℝ), (0 : ℝ), (0 : ℝ))
          else if i = 2 then some ((1 : ℝ), (0 : ℝ), (0 : ℝ))
          else if i = 3 then some ((0 : ℝ), (1 : ℝ), (0 : ℝ)) else none)) = true) ∧
      0 < specTotalArea
        (fun i => if i = 1 then some ((0 : ℝ), (0 : ℝ), (0 : ℝ))
          else if i = 2 then some ((1 : ℝ), (0 : ℝ), (0 : ℝ))
          else if i = 3 then some ((0 : ℝ), (1 : ℝ), (0 : ℝ)) else none)
        [((1 : ℤ), (2 : ℤ), (3 : ℤ))] ∧
      compute_weighted_centroid
        (fun i => if i = 1 then some ((0 : ℝ), (0 : ℝ), (0 : ℝ))
          else if i = 2 then some ((1 : ℝ), (0 : ℝ), (0 : ℝ))
          else if i = 3 then some ((0 : ℝ), (1 : ℝ), (0 : ℝ)) else none)
        [((1 : ℤ), (2 : ℤ), (3 : ℤ))] =
        .ok (some (vdiv
          (specWeightedSum
            (fun i => if i = 1 then some ((0 : ℝ), (0 : ℝ), (0 : ℝ))
              else if i = 2 then some ((1 : ℝ), (0 : ℝ), (0 : ℝ))
              else if i = 3 then some ((0 : ℝ), (1 : ℝ), (0 : ℝ)) else none)
            [((1 : ℤ), (2 : ℤ), (3 : ℤ))])
          (specTotalArea
            (fun i => if i = 1 then some ((0 : ℝ), (0 : ℝ), (0 : ℝ))
              else if i = 2 then some ((1 : ℝ), (0 : ℝ), (0 : ℝ))
              else if i = 3 then some ((0 : ℝ), (1 : ℝ), (0 : ℝ)) else none)
            [((1 : ℤ), (2 : ℤ), (3 : ℤ))]))) := by
  have h1 : (([((1 : ℤ), (2 : ℤ), (3 : ℤ))] : List Face).all
      (resolves (fun i => if i = 1 then some ((0 : ℝ), (0 : ℝ), (0 : ℝ))
        else if i = 2 then some ((1 : ℝ), (0 : ℝ), (0 : ℝ))
        else if i = 3 then some ((0 : ℝ), (1 : ℝ), (0 : ℝ)) else none)) = true) := by
    simp [resolves, resolve3]
  have harea : specTotalArea
      (fun i => if i = 1 then some ((0 : ℝ), (0 : ℝ), (0 : ℝ))
        else if i = 2 then some ((1 : ℝ), (0 : ℝ), (0 : ℝ))
        else if i = 3 then some ((0 : ℝ), (1 : ℝ), (0 : ℝ)) else none)
      [((1 : ℤ), (2 : ℤ), (3 : ℤ))] = 1 / 2 := by
    simp [specTotalArea, areaOf, resolve3, compute_triangle_area, cross3,
      norm3, Prod.mk_sub_mk]
  have h2 : 0 < specTotalArea
      (fun i => if i = 1 then some ((0 : ℝ), (0 : ℝ), (0 : ℝ))
        else if i = 2 then some ((1 : ℝ), (0 : ℝ), (0 : ℝ))
        else if i = 3 then some ((0 : ℝ), (1 : ℝ), (0 : ℝ)) else none)
      [((1 : ℤ), (2 : ℤ), (3 : ℤ))] := by
    rw [harea]; norm_num
  exact ⟨h1, h2, claim_C1 _ _ h1 h2⟩
